import Mathlib

deriving instance DecidableEq for Except

/-!
Verification development for the image-flashing orchestration core of a
hardware test-harness server (file `ttbd/ttbl/images.py`).

The Python source is shallowly embedded: every driver call, power-rail
call, console call, metadata write and file access performed by the
orchestrator is recorded as an event in a trace, and fallible code is
modelled with `Except`.  External collaborators (file contents, the
SHA-512 function, the metadata store, the power rail, the decompressor,
the registry lookup) are oracles, i.e. parameters of the model.

Machine clock: the supervision loop of `_flash_parallel_do` only observes
the clock through `time.time()` and advances it through
`time.sleep(check_period)`; the model therefore uses a discrete clock in
`ℚ` that advances by the sleep period once per loop iteration, with the
driver calls themselves taking no time.
-/

namespace Ttbl

/-- A power-rail sequence descriptor: an ordered list of steps such as
`("off", "full")`; treated opaquely by the core (`ttbl.power` collaborator). -/
abbrev PowerSeq := List (String × String)

/-- The per-driver image sub-map `{image_type: file_name}`, in insertion
order (Python `OrderedDict`). -/
abbrev ImageMap := List (String × String)

/-- Immutable driver metadata, from `impl_c.__init__` / `impl2_c.__init__`
(`ttbd/ttbl/images.py`).  `check_period` and `retries` are only meaningful
for supervised drivers (`impl2_c`); the Python constructor asserts
`check_period > 0.5` and `retries >= 0`. -/
structure DriverMeta where
  parallel : Bool
  estimated_duration : ℚ
  check_period : ℚ
  retries : Nat
  consoles_disable : List String
  power_sequence_pre : Option PowerSeq
  power_sequence_post : Option PowerSeq

/-- Observable behaviour of one driver within one request, as oracles
indexed by the invocation count of each method (1-based).  `Except.error`
models the Python method raising an exception. -/
structure DriverBehavior where
  start : Nat → Except String Unit
  check_done : Nat → Except String Bool
  post_check : Nat → Except String (Option String)
  flash : Except String Unit

/-- A registered driver.  `supervised = true` models an `impl2_c` subclass
(has `flash_start`/`flash_check_done`/`flash_kill`/`flash_post_check`);
`supervised = false` models a plain `impl_c` one-shot driver, which has a
`flash` method but none of the supervised entry points, so that looking up
`flash_start` on it raises `AttributeError`.  `id` stands for Python
object identity (used as the bucket dictionary key). -/
structure Driver where
  id : String
  supervised : Bool
  meta : DriverMeta
  behavior : DriverBehavior

/-- One bucket entry: a driver together with its image sub-map. -/
abbrev Entry := Driver × ImageMap

/-- Events recorded while the orchestrator runs.  Each event is one call
into a collaborator subsystem or one driver method invocation. -/
inductive Ev where
  | powerSeq (seq : PowerSeq)
  | consoleDisable (name : String)
  | consoleEnable (name : String)
  | flashStart (driver : String) (retry_count : Nat)
  | checkDone (driver : String)
  | postCheck (driver : String)
  | kill (driver : String)
  | fsdbSet (key : String) (value : String)
  | openFile (path : String)
  | timestamp
  deriving DecidableEq, Repr

abbrev Trace := List Ev

/-- Error outcomes (Python exceptions) of the orchestrator. -/
inductive Err where
  | unknownImageType (image_type : String)
  | permissionDenied (path : String)
  | attributeError (driver : String)
  | raised (msg : String)
  | retriesExhausted (driver : String)
  | timedout
  | fsdbFailed (key : String)
  | powerFailed (seq : PowerSeq)
  deriving DecidableEq, Repr

/-- Environment oracles owned by the target: file contents by path, the
SHA-512 hex-digest function, which metadata keys the store fails to write
(`fsdb.set` raising), which power sequences fail, and the result path of
`commonl.maybe_decompress`. -/
structure Target where
  contents : String → String
  sha512 : String → String
  fsdb_fails : String → Bool
  power_fails : PowerSeq → Bool
  decompress : String → String

/-- `target.fsdb.set(key, value)`: one metadata write, which may raise. -/
def fsdb_set (tgt : Target) (key value : String) : Trace × Except Err Unit :=
  if tgt.fsdb_fails key then ([], .error (.fsdbFailed key))
  else ([.fsdbSet key value], .ok ())

/-- `commonl.hash_file(hashlib.sha512(), name)`: reads the file and
returns the hex digest of the SHA-512 of its contents. -/
def hash_file (tgt : Target) (name : String) : Trace × String :=
  ([.openFile name], tgt.sha512 (tgt.contents name))

/-- `interface._hash_record(target, images)` (`ttbd/ttbl/images.py:534`):
for each image, hash the file and write the `last_sha512` and `last_name`
metadata keys.  There is no exception handling in the source: a failing
`fsdb.set` propagates. -/
def hash_record (tgt : Target) : ImageMap → Trace × Except Err Unit
  | [] => ([], .ok ())
  | (image_type, name) :: rest =>
    let t1 := (hash_file tgt name).1
    let digest := (hash_file tgt name).2
    let key_sha := "interfaces.images." ++ image_type ++ ".last_sha512"
    match fsdb_set tgt key_sha digest with
    | (t2, .error e) => (t1 ++ t2, .error e)
    | (t2, .ok _) =>
      let key_name := "interfaces.images." ++ image_type ++ ".last_name"
      match fsdb_set tgt key_name name with
      | (t3, .error e) => (t1 ++ t2 ++ t3, .error e)
      | (t3, .ok _) =>
        let rec_rest := hash_record tgt rest
        (t1 ++ t2 ++ t3 ++ rec_rest.1, rec_rest.2)

/-- `k * p` for a natural `k` and rational `p`, computed directly on the
numerator so that the kernel can evaluate it (see `rat_nmul_eq`). -/
def rat_nmul (k : Nat) (p : ℚ) : ℚ :=
  Rat.normalize ((k : Int) * p.num) p.den p.den_nz

theorem rat_nmul_eq (k : Nat) (p : ℚ) : rat_nmul k p = (k : ℚ) * p := by
  rw [rat_nmul, Rat.normalize_eq_mkRat, Rat.mkRat_eq_div]
  push_cast
  rw [mul_div_assoc, Rat.num_div_den]

/-- Per-driver execution context (the `context` dictionary created by
`_flash_parallel_do`), together with the model bookkeeping for the
behaviour oracles.  `rc` is `context['retry_count']` (1-based); `sk`, `cc`
and `pc` count how many `flash_start`, `flash_check_done` and
`flash_post_check` invocations the driver has received so far; `done`
records membership in `done_impls`. -/
structure DState where
  rc : Nat
  sk : Nat
  cc : Nat
  pc : Nat
  done : Bool
  deriving DecidableEq, Repr

/-- The loop state: each plan entry paired with its context. -/
abbrev PlanSt := List (Entry × DState)

/-- `impl.flash_start(target, images, context)` in the start-up loop of
`_flash_parallel_do`: attribute lookup raises `AttributeError` on a
one-shot driver; otherwise the method runs (event recorded) and may
itself raise. -/
def start_all : List Entry → Trace × Except Err PlanSt
  | [] => ([], .ok [])
  | e :: rest =>
    let d := e.1
    if d.supervised then
      match d.behavior.start 1 with
      | .error m => ([.flashStart d.id 1], .error (.raised m))
      | .ok _ =>
        match start_all rest with
        | (tr, .error err) => (.flashStart d.id 1 :: tr, .error err)
        | (tr, .ok sts) => (.flashStart d.id 1 :: tr, .ok ((e, ⟨1, 1, 0, 0, false⟩) :: sts))
    else ([], .error (.attributeError d.id))

/-- Outcome of polling a single driver inside one loop iteration. -/
inductive PollRes where
  | cont (st : DState)
  | exhausted (driver : String)
  | fail (e : Err)

/-- One driver's slice of the polling loop body of `_flash_parallel_do`
(`ttbd/ttbl/images.py:581`), at clock value `t` (seconds since the loop
start `ts0`): skip drivers already done; once `t` exceeds the driver's
`check_period`, call `flash_check_done`; on completion run
`flash_post_check`; on `None` record hashes and mark done; on a
diagnostic retry while `retry_count <= retries`, else signal the
fail-fast (retries exhausted) path. -/
def poll_one (tgt : Target) (t : ℚ) (e : Entry) (st : DState) : Trace × PollRes :=
  let d := e.1
  if st.done then ([], .cont st)
  else if t > d.meta.check_period then
    match d.behavior.check_done (st.cc + 1) with
    | .error m => ([.checkDone d.id], .fail (.raised m))
    | .ok b =>
      if b then
        match d.behavior.post_check (st.pc + 1) with
        | .error m => ([.checkDone d.id, .postCheck d.id], .fail (.raised m))
        | .ok none =>
          match hash_record tgt e.2 with
          | (thr, .error err) => ([.checkDone d.id, .postCheck d.id] ++ thr, .fail err)
          | (thr, .ok _) =>
            ([.checkDone d.id, .postCheck d.id] ++ thr,
             .cont { st with cc := st.cc + 1, pc := st.pc + 1, done := true })
        | .ok (some _) =>
          if st.rc ≤ d.meta.retries then
            match d.behavior.start (st.sk + 1) with
            | .error m =>
              ([.checkDone d.id, .postCheck d.id, .flashStart d.id (st.rc + 1)],
               .fail (.raised m))
            | .ok _ =>
              ([.checkDone d.id, .postCheck d.id, .flashStart d.id (st.rc + 1)],
               .cont { st with cc := st.cc + 1, pc := st.pc + 1,
                               rc := st.rc + 1, sk := st.sk + 1 })
          else ([.checkDone d.id, .postCheck d.id], .exhausted d.id)
      else ([.checkDone d.id], .cont { st with cc := st.cc + 1 })
  else ([], .cont st)

/-- Outcome of one whole pass of the inner `for impl, images in
parallel.items()` loop. -/
inductive PollAllRes where
  | cont (sts : PlanSt)
  | exhausted (driver : String)
  | fail (e : Err)

/-- The inner for loop of `_flash_parallel_do`: drivers are polled in plan
order; an exception or the fail-fast branch stops the pass immediately. -/
def poll_all (tgt : Target) (t : ℚ) : PlanSt → Trace × PollAllRes
  | [] => ([], .cont [])
  | (e, st) :: rest =>
    match poll_one tgt t e st with
    | (tr, .cont st2) =>
      match poll_all tgt t rest with
      | (tr2, .cont sts) => (tr ++ tr2, .cont ((e, st2) :: sts))
      | (tr2, .exhausted d) => (tr ++ tr2, .exhausted d)
      | (tr2, .fail err) => (tr ++ tr2, .fail err)
    | (tr, .exhausted d) => (tr, .exhausted d)
    | (tr, .fail err) => (tr, .fail err)

/-- The `for _impl, _images in parallel.items(): _impl.flash_kill(...)`
loops run on the fail-fast and timeout paths: every driver of the
sub-plan, done or not, receives one `flash_kill`, in plan order. -/
def kill_all (plan : List Entry) : Trace :=
  plan.map (fun e => .kill e.1.id)

/-- `len(done_impls) == len(parallel)`. -/
def all_done (sts : PlanSt) : Bool :=
  sts.all (fun p => p.2.done)

/-- The supervision loop of `_flash_parallel_do`
(`while ts - ts0 < estimated_duration:`).  `k` counts completed
iterations, so the clock at the loop guard is `k * period` and the clock
inside iteration `k + 1` (after `time.sleep(check_period)`) is
`(k + 1) * period`.  `fuel` is a recursion bound; with the fuel supplied
by `flash_parallel_do` it is never exhausted when `period > 0` (the fuel
branch replicates the timeout exit so that the two time-out shapes
coincide). -/
def loop_go (tgt : Target) (plan : List Entry) (duration period : ℚ) :
    Nat → Nat → PlanSt → Trace × Except Err Unit
  | 0, _, _ => (kill_all plan, .error .timedout)
  | fuel + 1, k, sts =>
    if rat_nmul k period < duration then
      match poll_all tgt (rat_nmul (k + 1) period) sts with
      | (tr, .cont sts2) =>
        if all_done sts2 then (.timestamp :: tr, .ok ())
        else
          let rest := loop_go tgt plan duration period fuel (k + 1) sts2
          (.timestamp :: tr ++ rest.1, rest.2)
      | (tr, .exhausted d) =>
        (.timestamp :: (tr ++ kill_all plan), .error (.retriesExhausted d))
      | (tr, .fail e) => (.timestamp :: tr, .error e)
    else (kill_all plan, .error .timedout)

/-- `estimated_duration = max(impl.estimated_duration, estimated_duration)`
accumulated over the plan, starting from `0` (`ttbd/ttbl/images.py:561`). -/
def compute_duration (plan : List Entry) : ℚ :=
  plan.foldl (fun acc e => max e.1.meta.estimated_duration acc) 0

/-- `check_period = min(impl.check_period, check_period)` accumulated over
the plan, starting from `4` (`ttbd/ttbl/images.py:562,570`): the sleep
interval of the supervision loop. -/
def compute_period (plan : List Entry) : ℚ :=
  plan.foldl (fun acc e => min e.1.meta.check_period acc) 4

/-- Iteration bound for the supervision loop: the guard stops the loop at
the first `k` with `k * period ≥ duration`, and when `period > 0` we have
`duration / period ≤ duration.num.toNat * period.den`, so this fuel is
never exhausted (`loop_fuel_sufficient`). -/
def loop_fuel (duration period : ℚ) : Nat :=
  duration.num.toNat * period.den + 2

/-- `interface._flash_parallel_do(target, parallel, image_names)`
(`ttbd/ttbl/images.py:557`): create a fresh context per driver, start
every driver, then supervise until all drivers are done, a driver runs
out of retries, the deadline passes, or an exception escapes. -/
def flash_parallel_do (tgt : Target) (plan : List Entry) : Trace × Except Err Unit :=
  let duration := compute_duration plan
  let period := compute_period plan
  match start_all plan with
  | (tr, .error e) => (tr, .error e)
  | (tr, .ok sts) =>
    let rest := loop_go tgt plan duration period (loop_fuel duration period) 0 sts
    (tr ++ rest.1, rest.2)

/-- `interface._flash_consoles_disable` (`ttbd/ttbl/images.py:627`): for
every driver in plan order, disable each console it lists. -/
def flash_consoles_disable : List Entry → Trace
  | [] => []
  | e :: rest => e.1.meta.consoles_disable.map Ev.consoleDisable ++ flash_consoles_disable rest

/-- `interface._flash_consoles_enable` (`ttbd/ttbl/images.py:644`). -/
def flash_consoles_enable : List Entry → Trace
  | [] => []
  | e :: rest => e.1.meta.consoles_disable.map Ev.consoleEnable ++ flash_consoles_enable rest

/-- `target.power.sequence(target, seq)`: one power-rail call, which may
raise. -/
def power_sequence_run (tgt : Target) (sq : PowerSeq) : Trace × Except Err Unit :=
  if tgt.power_fails sq then ([.powerSeq sq], .error (.powerFailed sq))
  else ([.powerSeq sq], .ok ())

/-- `interface._flash_parallel(target, parallel, power_sequence_pre,
power_sequence_post)` (`ttbd/ttbl/images.py:656`): run the pre sequence
(aborting on failure before touching consoles or drivers), then a
`try/finally` whose body disables consoles and runs
`_flash_parallel_do`, and whose `finally` block re-enables the consoles
and then runs the post sequence.  Because the post sequence sits inside
the `finally` block, it runs on the failure paths too (an exception
raised by it replaces the body's exception, as in Python). -/
def flash_parallel (tgt : Target) (plan : List Entry)
    (pre post : Option PowerSeq) : Trace × Except Err Unit :=
  let pre_run := match pre with
    | some sq => power_sequence_run tgt sq
    | none => ([], .ok ())
  match pre_run with
  | (tr0, .error e) => (tr0, .error e)
  | (tr0, .ok _) =>
    let trD := flash_consoles_disable plan
    let do_run := flash_parallel_do tgt plan
    let trE := flash_consoles_enable plan
    let post_run := match post with
      | some sq => power_sequence_run tgt sq
      | none => ([], .ok ())
    let r := match post_run.2 with
      | .error e => Except.error e
      | .ok _ => do_run.2
    (tr0 ++ trD ++ do_run.1 ++ trE ++ post_run.1, r)

/-- Python `s.startswith(p)`: character-based prefix test (Python strings
are character sequences, so the model works on `String.data`). -/
def chars_start_with : List Char → List Char → Bool
  | _, [] => true
  | [], _ :: _ => false
  | c :: cs, d :: ds => c = d && chars_start_with cs ds

def str_starts_with (s p : String) : Bool :=
  chars_start_with s.data p.data

/-- Python `s.endswith(p)`, character based. -/
def str_ends_with (s p : String) : Bool :=
  chars_start_with s.data.reverse p.data.reverse

/-- Python `s[n:]`, character based. -/
def str_drop (s : String) (n : Nat) : String :=
  String.mk (s.data.drop n)

/-- `os.path.join(user_path, img_name)` for a non-absolute `img_name`. -/
def path_join (a b : String) : String :=
  if str_ends_with a "/" then a ++ b else a ++ "/" ++ b

/-- The `for path, path_translated in ttbl.store.paths_allowed.items()`
scan of `put_flash`: the first whitelisted source prefix of an absolute
image name is replaced by its server-side translation; `none` models the
`for`/`else` fall-through that raises `PermissionError`. -/
def translate_path (paths_allowed : List (String × String)) (img_name : String) :
    Option String :=
  match paths_allowed with
  | [] => none
  | (p, pt) :: rest =>
    if str_starts_with img_name p then some (pt ++ str_drop img_name p.data.length)
    else translate_path rest img_name

/-- The file-name policy of `put_flash` (`ttbd/ttbl/images.py:704`):
relative names live under the user's storage directory; absolute names
must match the whitelist or the request fails with `PermissionError`. -/
def resolve_file_name (paths_allowed : List (String × String))
    (user_path img_name : String) : Except Err String :=
  if str_starts_with img_name "/" then
    match translate_path paths_allowed img_name with
    | none => .error (.permissionDenied img_name)
    | some t => .ok t
  else .ok (path_join user_path img_name)

/-- `OrderedDict` assignment: replace in place if the key is present
(keeping its position), else append. -/
def update_assoc (m : ImageMap) (k v : String) : ImageMap :=
  match m with
  | [] => [(k, v)]
  | (k0, v0) :: rest =>
    if k0 = k then (k0, v) :: rest else (k0, v0) :: update_assoc rest k v

/-- `defaultdict(OrderedDict)` update `bucket[impl][img_type_real] =
real_file_name`, keyed by driver identity, preserving first-insertion
order of drivers. -/
def bucket_add (b : List Entry) (d : Driver) (k v : String) : List Entry :=
  match b with
  | [] => [(d, [(k, v)])]
  | (d0, m) :: rest =>
    if d0.id = d.id then (d0, update_assoc m k v) :: rest
    else (d0, m) :: bucket_add rest d k v

/-- The classification loop of `put_flash` (`ttbd/ttbl/images.py:700`):
for each requested `(img_type, img_name)` in insertion order, resolve the
image type through the registry (`impl_get_by_name`, modelled by the
`lookup` oracle, which resolves aliases and fails on unknown types),
apply the path policy, decompress under the per-source lock (which
inspects, i.e. opens, the source file), and add the resolved name to the
serial or parallel bucket according to the driver's `parallel` flag. -/
def classify (tgt : Target) (lookup : String → Option (Driver × String))
    (paths_allowed : List (String × String)) (user_path : String) :
    List (String × String) → List Entry → List Entry →
    Trace × Except Err (List Entry × List Entry)
  | [], serialB, parallelB => ([], .ok (serialB, parallelB))
  | (img_type, img_name) :: rest, serialB, parallelB =>
    match lookup img_type with
    | none => ([], .error (.unknownImageType img_type))
    | some (impl, img_type_real) =>
      match resolve_file_name paths_allowed user_path img_name with
      | .error e => ([], .error e)
      | .ok file_name =>
        let real_file_name := tgt.decompress file_name
        let buckets :=
          if impl.meta.parallel then
            (serialB, bucket_add parallelB impl img_type_real real_file_name)
          else
            (bucket_add serialB impl img_type_real real_file_name, parallelB)
        let res := classify tgt lookup paths_allowed user_path rest buckets.1 buckets.2
        (Ev.openFile file_name :: res.1, res.2)

/-- The serial dispatch loop of `put_flash`: each serial-bucket driver is
run through `_flash_parallel` as a single-entry sub-plan with its own
pre/post power sequences; an error stops the remaining serial drivers
and the parallel bucket. -/
def flash_serial_list (tgt : Target) : List Entry → Trace × Except Err Unit
  | [] => ([], .ok ())
  | (d, imgs) :: rest =>
    match flash_parallel tgt [(d, imgs)] d.meta.power_sequence_pre
        d.meta.power_sequence_post with
    | (tr, .error e) => (tr, .error e)
    | (tr, .ok _) =>
      let res := flash_serial_list tgt rest
      (tr ++ res.1, res.2)

/-- The interface-level shared power sequences (constructor arguments of
`ttbl.images.interface`). -/
structure FlashIface where
  power_sequence_pre : Option PowerSeq
  power_sequence_post : Option PowerSeq

/-- `interface.put_flash(target, who, args, _files, user_path)`
(`ttbd/ttbl/images.py:681`): classify the requested images into the
serial and parallel buckets, timestamp the target, run every serial
driver with its own power wrapper, then the parallel bucket (if
non-empty) with the interface-wide wrapper, and return the empty object. -/
def put_flash (iface : FlashIface) (tgt : Target)
    (lookup : String → Option (Driver × String))
    (paths_allowed : List (String × String)) (user_path : String)
    (images : List (String × String)) :
    Trace × Except Err (List (String × String)) :=
  match classify tgt lookup paths_allowed user_path images [] [] with
  | (tr, .error e) => (tr, .error e)
  | (tr, .ok (serialB, parallelB)) =>
    match flash_serial_list tgt serialB with
    | (trS, .error e) => (tr ++ [Ev.timestamp] ++ trS, .error e)
    | (trS, .ok _) =>
      if parallelB.isEmpty then (tr ++ [Ev.timestamp] ++ trS, .ok [])
      else
        match flash_parallel tgt parallelB iface.power_sequence_pre
            iface.power_sequence_post with
        | (trP, .error e) => (tr ++ [Ev.timestamp] ++ trS ++ trP, .error e)
        | (trP, .ok _) => (tr ++ [Ev.timestamp] ++ trS ++ trP, .ok [])

/-! ### Trace observations used by the claims -/

/-- Number of `flash_kill` calls a driver received. -/
def count_kills (i : String) (tr : Trace) : Nat :=
  tr.countP (fun e => e = Ev.kill i)

/-- The `retry_count` values carried by the `flash_start` invocations of
one driver, in call order. -/
def start_events (i : String) (tr : Trace) : List Nat :=
  tr.filterMap (fun e =>
    match e with
    | .flashStart d rc => if d = i then some rc else none
    | _ => none)

/-! ### Concrete fixtures (used by counterexamples and witnesses) -/

/-- A target whose oracles all succeed; contents and hashes are tagged
strings so distinct files have distinct digests. -/
def tgt_ok : Target :=
  { contents := fun p => "data:" ++ p,
    sha512 := fun c => "sha512:" ++ c,
    fsdb_fails := fun _ => false,
    power_fails := fun _ => false,
    decompress := fun s => s }

/-- Same target, but the metadata store fails on one key. -/
def tgt_fsdb_fail : Target :=
  { tgt_ok with fsdb_fails := fun k => k = "interfaces.images.t1.last_sha512" }

/-- Supervised behaviour: completes and verifies at the first poll. -/
def behavior_ok : DriverBehavior :=
  { start := fun _ => .ok (), check_done := fun _ => .ok true,
    post_check := fun _ => .ok none, flash := .ok () }

/-- Supervised behaviour: completes, but `flash_post_check` always
returns a diagnostic. -/
def behavior_diag : DriverBehavior :=
  { start := fun _ => .ok (), check_done := fun _ => .ok true,
    post_check := fun _ => .ok (some "bad"), flash := .ok () }

/-- Supervised behaviour: `flash_check_done` raises. -/
def behavior_check_raises : DriverBehavior :=
  { start := fun _ => .ok (), check_done := fun _ => .error "boom",
    post_check := fun _ => .ok none, flash := .ok () }

/-- Supervised behaviour: the child never finishes. -/
def behavior_never : DriverBehavior :=
  { start := fun _ => .ok (), check_done := fun _ => .ok false,
    post_check := fun _ => .ok none, flash := .ok () }

def drv_always_fail : Driver :=
  ⟨"d1", true, ⟨true, 3, 1, 0, [], none, none⟩, behavior_diag⟩

def drv_flash_ok : Driver :=
  ⟨"d2", true, ⟨true, 3, 1, 0, ["con1"], none, none⟩, behavior_ok⟩

def drv_check_raises : Driver :=
  ⟨"d3", true, ⟨true, 3, 1, 3, [], none, none⟩, behavior_check_raises⟩

def drv_retry_twice : Driver :=
  ⟨"d5", true, ⟨true, 5, 1, 2, [], none, none⟩, behavior_diag⟩

def drv_oneshot : Driver :=
  ⟨"dos", false, ⟨false, 60, 2, 3, [], some [("on", "c")], none⟩, behavior_ok⟩

def drv_cp10 : Driver :=
  ⟨"d10", true, ⟨true, 20, 10, 3, [], none, none⟩, behavior_ok⟩

def drv_never_done : Driver :=
  ⟨"d6", true, ⟨true, 2, 1, 3, [], none, none⟩, behavior_never⟩

def iface_plain : FlashIface := ⟨none, none⟩

def lookup_oneshot : String → Option (Driver × String) :=
  fun t => if t = "t" then some (drv_oneshot, "t") else none

def lookup_flash_ok : String → Option (Driver × String) :=
  fun t => if t = "t1" then some (drv_flash_ok, "t1") else none

/-! ### C10 -/

/-- C10: a flash request with an empty images mapping succeeds with the
empty object, and the only thing `put_flash` does is timestamp the
target: no power sequence, no console disable/enable, no driver
operation and no hash metadata write appears in the trace. -/
theorem C10_empty_request (iface : FlashIface) (tgt : Target)
    (lookup : String → Option (Driver × String))
    (paths_allowed : List (String × String)) (user_path : String) :
    put_flash iface tgt lookup paths_allowed user_path [] = ([Ev.timestamp], .ok []) :=
  rfl

/-! ### C1 -/

/-- C1: the claim (and the comment in `_flash_parallel` itself) says the
post power sequence is never run on a failure path; the code, however,
runs it from the `finally` block.  Concretely: a single supervised driver
whose `flash_post_check` always returns a diagnostic and whose `retries`
is 0 makes `_flash_parallel_do` raise, yet the post power sequence call
`Ev.powerSeq [("off", "full")]` still appears in the trace of
`_flash_parallel`. -/
theorem C1_post_sequence_runs_on_failure :
    (flash_parallel tgt_ok [(drv_always_fail, [("t1", "p1")])]
        none (some [("off", "full")])).2 = .error (.retriesExhausted "d1")
    ∧ Ev.powerSeq [("off", "full")]
        ∈ (flash_parallel tgt_ok [(drv_always_fail, [("t1", "p1")])]
            none (some [("off", "full")])).1 := by
  decide

/-! ### C2 -/

/-- C2: the claim says `put_flash` bypasses the supervision state machine
for one-shot serial drivers and calls their `flash` method once.  The
code has no such bypass: the serial dispatch funnels every driver through
`_flash_parallel_do`, whose very first driver call is `flash_start` — an
attribute a plain `impl_c` one-shot driver does not have — so the request
dies with `AttributeError` after running the driver's pre power sequence,
and `driver.flash` has no call site anywhere in the interface.  The trace
shows it all: the file is resolved, the target timestamped, the pre
sequence run, and then the `AttributeError`; no `flash_start` succeeds
and no flash, hash or post sequence happens. -/
theorem C2_oneshot_driver_attribute_error :
    put_flash iface_plain tgt_ok lookup_oneshot [] "/u" [("t", "f")]
      = ([Ev.openFile "/u/f", Ev.timestamp, Ev.powerSeq [("on", "c")]],
         .error (.attributeError "dos")) := by
  decide

/-! ### C5 -/

/-- Modelled from the spec for comparison: "`period = min(D.check_period
for D in drivers)`" — the plain minimum of the participating drivers'
check periods, for a nonempty plan. -/
def spec_min_check_period (e : Entry) (rest : List Entry) : ℚ :=
  rest.foldl (fun acc x => min acc x.1.meta.check_period) e.1.meta.check_period

/-- C5 counterexample: for a single driver with `check_period = 10` the
claim says the loop polls every 10 seconds; the code's sleep interval
(`check_period` accumulated from the initial value 4) is 4. -/
theorem C5_single_driver_period_is_4 :
    compute_period [(drv_cp10, [("t1", "p1")])] = 4
    ∧ drv_cp10.meta.check_period = 10
    ∧ spec_min_check_period (drv_cp10, [("t1", "p1")]) [] = 10
    ∧ (4 : ℚ) ≠ 10 := by
  refine ⟨by decide, by decide, by decide, by decide⟩

lemma foldl_min_flip (l : List Entry) :
    ∀ a : ℚ, l.foldl (fun acc e => min e.1.meta.check_period acc) a
      = l.foldl (fun acc e => min acc e.1.meta.check_period) a := by
  induction l with
  | nil => intro a; rfl
  | cons x l ih =>
    intro a
    simp only [List.foldl_cons]
    rw [min_comm]
    exact ih _

lemma foldl_min_out (l : List Entry) :
    ∀ a b : ℚ, l.foldl (fun acc e => min acc e.1.meta.check_period) (min a b)
      = min a (l.foldl (fun acc e => min acc e.1.meta.check_period) b) := by
  induction l with
  | nil => intro a b; rfl
  | cons x l ih =>
    intro a b
    simp only [List.foldl_cons]
    rw [min_assoc]
    exact ih a _

/-- C5 amended: for every nonempty sub-plan, the sleep interval of the
supervision loop equals the minimum of 4 (the initial value of the
accumulator in `_flash_parallel_do`) and the participating drivers'
`check_period` attributes. -/
theorem C5_period_amended (e : Entry) (rest : List Entry) :
    compute_period (e :: rest) = min 4 (spec_min_check_period e rest) := by
  show (e :: rest).foldl (fun acc x => min x.1.meta.check_period acc) 4 = _
  simp only [List.foldl_cons]
  rw [foldl_min_flip, min_comm e.1.meta.check_period 4, foldl_min_out]
  rfl

/-! ### C8 -/

/-- C8 counterexample: the claim says a metadata-store failure inside the
hash recorder is logged and the flash request still succeeds.  In the
code `_hash_record` has no exception handling, so the `fsdb.set` error
propagates out of `put_flash`: a request whose only driver flashes
successfully fails with the metadata error. -/
theorem C8_metadata_failure_fails_flash_cex :
    (put_flash iface_plain tgt_fsdb_fail lookup_flash_ok [] "/u" [("t1", "p1")]).2
      = .error (.fsdbFailed "interfaces.images.t1.last_sha512") := by
  decide

/-- C8 amended: if writing the `last_sha512` metadata key fails, the
failure propagates out of `_hash_record` (and hence fails the flash
request); nothing catches or logs it. -/
theorem C8_metadata_failure_propagates (tgt : Target) (image_type name : String)
    (rest : ImageMap)
    (h : tgt.fsdb_fails ("interfaces.images." ++ image_type ++ ".last_sha512") = true) :
    (hash_record tgt ((image_type, name) :: rest)).2
      = .error (.fsdbFailed ("interfaces.images." ++ image_type ++ ".last_sha512")) := by
  simp [hash_record, fsdb_set, h]

theorem C8_metadata_failure_propagates_witness :
    tgt_fsdb_fail.fsdb_fails ("interfaces.images." ++ "t1" ++ ".last_sha512") = true
    ∧ (hash_record tgt_fsdb_fail [("t1", "p1")]).2
        = .error (.fsdbFailed ("interfaces.images." ++ "t1" ++ ".last_sha512")) :=
  ⟨by decide, C8_metadata_failure_propagates tgt_fsdb_fail "t1" "p1" [] (by decide)⟩

/-! ### C7 -/

/-- C7: for every image `(image_type, name)` in the map handed to the
hash recorder, a successful `_hash_record` run writes the metadata key
`interfaces.images.<image_type>.last_sha512` with the SHA-512 hex digest
of the file's contents and `interfaces.images.<image_type>.last_name`
with the resolved path that was flashed. -/
theorem C7_hash_recording (tgt : Target) (images : ImageMap) (image_type name : String)
    (hmem : (image_type, name) ∈ images)
    (hok : (hash_record tgt images).2 = .ok ()) :
    Ev.fsdbSet ("interfaces.images." ++ image_type ++ ".last_sha512")
        (tgt.sha512 (tgt.contents name)) ∈ (hash_record tgt images).1
    ∧ Ev.fsdbSet ("interfaces.images." ++ image_type ++ ".last_name") name
        ∈ (hash_record tgt images).1 := by
  induction images with
  | nil => cases hmem
  | cons hd rest ih =>
    obtain ⟨t0, n0⟩ := hd
    by_cases h1 : tgt.fsdb_fails ("interfaces.images." ++ t0 ++ ".last_sha512")
    · simp [hash_record, fsdb_set, h1] at hok
    · by_cases h2 : tgt.fsdb_fails ("interfaces.images." ++ t0 ++ ".last_name")
      · simp [hash_record, fsdb_set, h1, h2] at hok
      · simp only [hash_record, fsdb_set, h1, h2, if_false, Bool.false_eq_true,
          if_neg, ite_false] at hok ⊢
        rcases List.mem_cons.mp hmem with heq | hmem2
        · rw [Prod.mk.injEq] at heq
          obtain ⟨rfl, rfl⟩ := heq
          constructor <;> simp [hash_file]
        · have := ih hmem2 (by simpa using hok)
          constructor <;> · simp [hash_file]; tauto

theorem C7_hash_recording_witness :
    ((("t1", "p1") : String × String) ∈ [(("t1", "p1") : String × String)])
    ∧ (hash_record tgt_ok [("t1", "p1")]).2 = .ok ()
    ∧ (Ev.fsdbSet ("interfaces.images." ++ "t1" ++ ".last_sha512")
          (tgt_ok.sha512 (tgt_ok.contents "p1")) ∈ (hash_record tgt_ok [("t1", "p1")]).1
       ∧ Ev.fsdbSet ("interfaces.images." ++ "t1" ++ ".last_name") "p1"
          ∈ (hash_record tgt_ok [("t1", "p1")]).1) :=
  ⟨by decide, by decide,
   C7_hash_recording tgt_ok [("t1", "p1")] "t1" "p1" (by decide) (by decide)⟩

/-! ### C4 counterexample -/

/-- C4 counterexample: the claim covers "any other fatal error" after the
drivers were started, but an exception escaping `flash_check_done`
propagates out of the supervision loop with no `flash_kill` call at all:
the driver was started (`flashStart` is in the trace), the request fails,
and `count_kills` is 0. -/
theorem C4_no_kill_on_escaping_exception_cex :
    (flash_parallel_do tgt_ok [(drv_check_raises, [("t1", "p1")])]).2
      = .error (.raised "boom")
    ∧ Ev.flashStart "d3" 1 ∈ (flash_parallel_do tgt_ok [(drv_check_raises, [("t1", "p1")])]).1
    ∧ count_kills "d3" (flash_parallel_do tgt_ok [(drv_check_raises, [("t1", "p1")])]).1 = 0 := by
  decide

/-! ### C9 -/

lemma classify_denied (tgt : Target) (lookup : String → Option (Driver × String))
    (paths_allowed : List (String × String)) (user_path : String)
    (img_type img_name : String) (rest : List (String × String))
    (hlook : (lookup img_type).isSome = true)
    (habs : str_starts_with img_name "/" = true)
    (hdeny : translate_path paths_allowed img_name = none) :
    ∀ (pre : List (String × String)) (serialB parallelB : List Entry),
      (∀ p ∈ pre, (lookup p.1).isSome = true ∧
        ∃ f, resolve_file_name paths_allowed user_path p.2 = .ok f ∧ f ≠ img_name) →
      (classify tgt lookup paths_allowed user_path
          (pre ++ (img_type, img_name) :: rest) serialB parallelB).2
        = .error (.permissionDenied img_name)
      ∧ ∀ ev ∈ (classify tgt lookup paths_allowed user_path
          (pre ++ (img_type, img_name) :: rest) serialB parallelB).1,
          ∃ f, ev = Ev.openFile f ∧ f ≠ img_name := by
  intro pre
  induction pre with
  | nil =>
    intro serialB parallelB _
    obtain ⟨⟨impl, t_real⟩, hv⟩ := Option.isSome_iff_exists.mp hlook
    simp [classify, hv, resolve_file_name, habs, hdeny]
  | cons p pre ih =>
    intro serialB parallelB hpre
    obtain ⟨hplook, f, hres, hne⟩ := hpre p (List.mem_cons_self p pre)
    obtain ⟨⟨impl, t_real⟩, hv⟩ := Option.isSome_iff_exists.mp hplook
    obtain ⟨a, b⟩ := p
    simp only [List.cons_append, classify, hv, hres]
    have ihx := fun sB pB => ih sB pB (fun q hq => hpre q (List.mem_cons_of_mem _ hq))
    by_cases hc : impl.meta.parallel
    · simp only [hc, if_true]
      refine ⟨(ihx _ _).1, ?_⟩
      intro ev hev
      rcases List.mem_cons.mp hev with heq | hev2
      · exact ⟨f, heq, hne⟩
      · exact (ihx _ _).2 ev hev2
    · simp only [hc, if_false]
      refine ⟨(ihx _ _).1, ?_⟩
      intro ev hev
      rcases List.mem_cons.mp hev with heq | hev2
      · exact ⟨f, heq, hne⟩
      · exact (ihx _ _).2 ev hev2

/-- C9: a request containing an absolute image path that matches no
whitelisted prefix fails with `PermissionError` naming that path, before
any flashing: as long as the entries ahead of it resolve (their types are
registered and their paths pass the policy, to distinct files), the whole
`put_flash` trace consists only of the earlier entries' decompression
file inspections — no power sequence, console, driver, hash or timestamp
event — and the denied path itself is never opened. -/
theorem C9_path_policy (iface : FlashIface) (tgt : Target)
    (lookup : String → Option (Driver × String))
    (paths_allowed : List (String × String)) (user_path : String)
    (pre_entries rest : List (String × String)) (img_type img_name : String)
    (hlook : (lookup img_type).isSome = true)
    (habs : str_starts_with img_name "/" = true)
    (hdeny : translate_path paths_allowed img_name = none)
    (hpre : ∀ p ∈ pre_entries, (lookup p.1).isSome = true ∧
        ∃ f, resolve_file_name paths_allowed user_path p.2 = .ok f ∧ f ≠ img_name) :
    (put_flash iface tgt lookup paths_allowed user_path
        (pre_entries ++ (img_type, img_name) :: rest)).2
      = .error (.permissionDenied img_name)
    ∧ (∀ ev ∈ (put_flash iface tgt lookup paths_allowed user_path
          (pre_entries ++ (img_type, img_name) :: rest)).1,
        ∃ f, ev = Ev.openFile f ∧ f ≠ img_name)
    ∧ Ev.openFile img_name ∉ (put_flash iface tgt lookup paths_allowed user_path
        (pre_entries ++ (img_type, img_name) :: rest)).1 := by
  have h := classify_denied tgt lookup paths_allowed user_path img_type img_name rest
    hlook habs hdeny pre_entries [] [] hpre
  rcases hcl : classify tgt lookup paths_allowed user_path
      (pre_entries ++ (img_type, img_name) :: rest) [] [] with ⟨tr, r⟩
  rw [hcl] at h
  obtain ⟨hr, hevs⟩ := h
  simp only at hr
  subst hr
  refine ⟨?_, ?_, ?_⟩
  · simp [put_flash, hcl]
  · intro ev hev
    simp only [put_flash, hcl] at hev
    exact hevs ev hev
  · intro hmem
    simp only [put_flash, hcl] at hmem
    obtain ⟨f, heq, hne⟩ := hevs _ hmem
    cases heq
    exact hne rfl

theorem C9_path_policy_witness :
    str_starts_with "/etc/passwd" "/" = true
    ∧ translate_path [("/mnt/", "/srv/")] "/etc/passwd" = none
    ∧ ((put_flash iface_plain tgt_ok lookup_flash_ok [("/mnt/", "/srv/")] "/u"
          ([("t1", "good.img")] ++ ("t1", "/etc/passwd") :: [])).2
        = .error (.permissionDenied "/etc/passwd")
      ∧ (∀ ev ∈ (put_flash iface_plain tgt_ok lookup_flash_ok [("/mnt/", "/srv/")] "/u"
            ([("t1", "good.img")] ++ ("t1", "/etc/passwd") :: [])).1,
          ∃ f, ev = Ev.openFile f ∧ f ≠ "/etc/passwd")
      ∧ Ev.openFile "/etc/passwd" ∉ (put_flash iface_plain tgt_ok lookup_flash_ok
          [("/mnt/", "/srv/")] "/u" ([("t1", "good.img")] ++ ("t1", "/etc/passwd") :: [])).1) :=
  ⟨by decide, by decide,
   C9_path_policy iface_plain tgt_ok lookup_flash_ok [("/mnt/", "/srv/")] "/u"
     [("t1", "good.img")] [] "t1" "/etc/passwd" (by decide) (by decide) (by decide)
     (by
       intro p hp
       simp only [List.mem_singleton] at hp
       subst hp
       exact ⟨by decide, "/u/good.img", by decide, by decide⟩)⟩

/-! ### C6 -/

lemma mem_flash_consoles_disable (plan : List Entry) :
    ∀ ev ∈ flash_consoles_disable plan, ∃ n, ev = Ev.consoleDisable n := by
  induction plan with
  | nil => intro ev hev; cases hev
  | cons e rest ih =>
    intro ev hev
    rcases List.mem_append.mp hev with h | h
    · obtain ⟨n, _, rfl⟩ := List.mem_map.mp h
      exact ⟨n, rfl⟩
    · exact ih ev h

lemma mem_flash_consoles_enable (plan : List Entry) :
    ∀ ev ∈ flash_consoles_enable plan, ∃ n, ev = Ev.consoleEnable n := by
  induction plan with
  | nil => intro ev hev; cases hev
  | cons e rest ih =>
    intro ev hev
    rcases List.mem_append.mp hev with h | h
    · obtain ⟨n, _, rfl⟩ := List.mem_map.mp h
      exact ⟨n, rfl⟩
    · exact ih ev h

/-- C6 counterexample: a fully successful single-driver request whose
trace has exactly 12 events; the `last_sha512` metadata write sits at
index 8, strictly before the console re-enable (index 10) and the post
power sequence (index 11, the final event).  The claim said the hash
records are written last, after the post power sequence. -/
theorem C6_hash_written_before_post_sequence_cex :
    (flash_parallel tgt_ok [(drv_flash_ok, [("t1", "p1")])]
        (some [("on", "c")]) (some [("off", "full")])).2 = .ok ()
    ∧ (flash_parallel tgt_ok [(drv_flash_ok, [("t1", "p1")])]
        (some [("on", "c")]) (some [("off", "full")])).1.get? 8
      = some (Ev.fsdbSet "interfaces.images.t1.last_sha512" "sha512:data:p1")
    ∧ (flash_parallel tgt_ok [(drv_flash_ok, [("t1", "p1")])]
        (some [("on", "c")]) (some [("off", "full")])).1.get? 11
      = some (Ev.powerSeq [("off", "full")])
    ∧ (flash_parallel tgt_ok [(drv_flash_ok, [("t1", "p1")])]
        (some [("on", "c")]) (some [("off", "full")])).1.length = 12 := by
  decide

/-- C6 amended: on every successful flash the order is pre power
sequence, console disabling, the whole `_flash_parallel_do` phase
(driver starts, polling, and the hash metadata writes, which happen as
each driver completes), console re-enabling, and the post power sequence
last — i.e. every hash metadata write belongs to the
`_flash_parallel_do` segment, before console re-enable and before the
post power sequence, not after it. -/
theorem C6_order_amended (tgt : Target) (plan : List Entry) (pre post : PowerSeq)
    (hok : (flash_parallel tgt plan (some pre) (some post)).2 = .ok ()) :
    flash_parallel tgt plan (some pre) (some post)
      = (Ev.powerSeq pre :: (flash_consoles_disable plan
          ++ (flash_parallel_do tgt plan).1
          ++ flash_consoles_enable plan ++ [Ev.powerSeq post]), .ok ())
    ∧ (∀ k v, Ev.fsdbSet k v ∈ (flash_parallel tgt plan (some pre) (some post)).1 →
        Ev.fsdbSet k v ∈ (flash_parallel_do tgt plan).1)
    ∧ ∃ ltr, (flash_parallel_do tgt plan).1 = (start_all plan).1 ++ ltr := by
  by_cases hpf : tgt.power_fails pre
  · simp [flash_parallel, power_sequence_run, hpf] at hok
  · by_cases hqf : tgt.power_fails post
    · simp [flash_parallel, power_sequence_run, hpf, hqf] at hok
    · have hdo : (flash_parallel_do tgt plan).2 = .ok () := by
        simpa [flash_parallel, power_sequence_run, hpf, hqf] using hok
      refine ⟨?_, ?_, ?_⟩
      · simp [flash_parallel, power_sequence_run, hpf, hqf, hdo]
      swap
      · rcases hs : start_all plan with ⟨trS, res⟩
        cases res with
        | error er => simp [flash_parallel_do, hs] at hdo
        | ok sts =>
          refine ⟨(loop_go tgt plan (compute_duration plan) (compute_period plan)
              (loop_fuel (compute_duration plan) (compute_period plan)) 0 sts).1, ?_⟩
          simp [flash_parallel_do, hs]
      · intro k v hmem
        simp only [flash_parallel, power_sequence_run, hpf, hqf, if_false,
          Bool.false_eq_true, ite_false, List.singleton_append, List.mem_cons,
          List.mem_append] at hmem
        rcases hmem with (((h | h) | h) | h) | h | h
        · cases h
        · obtain ⟨n, hn⟩ := mem_flash_consoles_disable plan _ h
          cases hn
        · exact h
        · obtain ⟨n, hn⟩ := mem_flash_consoles_enable plan _ h
          cases hn
        · cases h
        · cases h

theorem C6_order_amended_witness :
    (flash_parallel tgt_ok [(drv_flash_ok, [("t1", "p1")])]
        (some [("on", "c")]) (some [("off", "full")])).2 = .ok ()
    ∧ (flash_parallel tgt_ok [(drv_flash_ok, [("t1", "p1")])]
          (some [("on", "c")]) (some [("off", "full")])
        = (Ev.powerSeq [("on", "c")] :: (flash_consoles_disable [(drv_flash_ok, [("t1", "p1")])]
            ++ (flash_parallel_do tgt_ok [(drv_flash_ok, [("t1", "p1")])]).1
            ++ flash_consoles_enable [(drv_flash_ok, [("t1", "p1")])]
            ++ [Ev.powerSeq [("off", "full")]]), .ok ())
      ∧ (∀ k v, Ev.fsdbSet k v ∈ (flash_parallel tgt_ok [(drv_flash_ok, [("t1", "p1")])]
            (some [("on", "c")]) (some [("off", "full")])).1 →
          Ev.fsdbSet k v ∈ (flash_parallel_do tgt_ok [(drv_flash_ok, [("t1", "p1")])]).1)
      ∧ ∃ ltr, (flash_parallel_do tgt_ok [(drv_flash_ok, [("t1", "p1")])]).1
          = (start_all [(drv_flash_ok, [("t1", "p1")])]).1 ++ ltr) :=
  ⟨by decide,
   C6_order_amended tgt_ok [(drv_flash_ok, [("t1", "p1")])]
     [("on", "c")] [("off", "full")] (by decide)⟩

/-! ### C4 amended -/

/-- The two fatal outcomes of the supervision loop itself (deadline
exceeded, retries exhausted), as opposed to an exception escaping a
driver call or the hash recorder. -/
def supervision_fatal (r : Except Err Unit) : Prop :=
  r = .error .timedout ∨ ∃ i, r = .error (.retriesExhausted i)

lemma hash_record_no_kill (tgt : Target) (images : ImageMap) (j : String) :
    Ev.kill j ∉ (hash_record tgt images).1 := by
  induction images with
  | nil => simp [hash_record]
  | cons hd rest ih =>
    obtain ⟨t0, n0⟩ := hd
    by_cases h1 : tgt.fsdb_fails ("interfaces.images." ++ t0 ++ ".last_sha512")
    · simp [hash_record, fsdb_set, h1, hash_file]
    · by_cases h2 : tgt.fsdb_fails ("interfaces.images." ++ t0 ++ ".last_name")
      · simp [hash_record, fsdb_set, h1, h2, hash_file]
      · simp only [hash_record, fsdb_set, h1, h2, hash_file, Bool.false_eq_true,
          if_false, ite_false, List.mem_append, List.mem_singleton]
        intro h
        rcases h with ((h | h) | h) | h
        · cases h
        · cases h
        · cases h
        · exact ih h

lemma hash_record_error_shape (tgt : Target) (images : ImageMap) (er : Err) :
    (hash_record tgt images).2 = .error er → ∃ k, er = .fsdbFailed k := by
  induction images with
  | nil => intro h; cases h
  | cons hd rest ih =>
    obtain ⟨t0, n0⟩ := hd
    by_cases h1 : tgt.fsdb_fails ("interfaces.images." ++ t0 ++ ".last_sha512")
    · intro h
      simp only [hash_record, fsdb_set, h1, if_true] at h
      exact ⟨_, (Except.error.injEq .. ▸ h).symm⟩
    · by_cases h2 : tgt.fsdb_fails ("interfaces.images." ++ t0 ++ ".last_name")
      · intro h
        simp only [hash_record, fsdb_set, h1, h2, Bool.false_eq_true, if_false,
          ite_false, if_true] at h
        exact ⟨_, (Except.error.injEq .. ▸ h).symm⟩
      · intro h
        simp only [hash_record, fsdb_set, h1, h2, Bool.false_eq_true, if_false,
          ite_false] at h
        exact ih h

lemma poll_one_no_kill (tgt : Target) (t : ℚ) (e : Entry) (st : DState) (j : String) :
    Ev.kill j ∉ (poll_one tgt t e st).1 := by
  by_cases h1 : st.done
  · simp [poll_one, h1]
  · by_cases h2 : t > e.1.meta.check_period
    · rcases hc : e.1.behavior.check_done (st.cc + 1) with m | b
      · simp [poll_one, h1, h2, hc]
      · cases b
        · simp [poll_one, h1, h2, hc]
        · rcases hp : e.1.behavior.post_check (st.pc + 1) with m | o
          · simp [poll_one, h1, h2, hc, hp]
          · match o with
            | none =>
              rcases hh : hash_record tgt e.2 with ⟨thr, hr⟩
              have hnk := hash_record_no_kill tgt e.2 j
              rw [hh] at hnk
              cases hr with
              | error er =>
                simp only [poll_one, h1, h2, hc, hp, hh, if_true, if_neg,
                  Bool.false_eq_true, ite_false, ite_true, List.mem_append,
                  List.mem_cons, List.mem_singleton]
                rintro ((h | h | h) | h)
                · cases h
                · cases h
                · cases h
                · exact hnk h
              | ok u =>
                simp only [poll_one, h1, h2, hc, hp, hh, if_true, if_neg,
                  Bool.false_eq_true, ite_false, ite_true, List.mem_append,
                  List.mem_cons, List.mem_singleton]
                rintro ((h | h | h) | h)
                · cases h
                · cases h
                · cases h
                · exact hnk h
            | some diag =>
              by_cases h3 : st.rc ≤ e.1.meta.retries
              · rcases hs : e.1.behavior.start (st.sk + 1) with m | u
                · simp [poll_one, h1, h2, hc, hp, h3, hs]
                · simp [poll_one, h1, h2, hc, hp, h3, hs]
              · simp [poll_one, h1, h2, hc, hp, h3]
    · simp [poll_one, h1, h2]

lemma poll_one_fail_shape (tgt : Target) (t : ℚ) (e : Entry) (st : DState) (er : Err) :
    (poll_one tgt t e st).2 = .fail er →
    (∃ m, er = .raised m) ∨ ∃ k, er = .fsdbFailed k := by
  by_cases h1 : st.done
  · simp [poll_one, h1]
  · by_cases h2 : t > e.1.meta.check_period
    · rcases hc : e.1.behavior.check_done (st.cc + 1) with m | b
      · simp only [poll_one, h1, h2, hc, Bool.false_eq_true, if_false, ite_false,
          if_true, ite_true]
        intro h
        cases h
        exact Or.inl ⟨m, rfl⟩
      · cases b
        · simp [poll_one, h1, h2, hc]
        · rcases hp : e.1.behavior.post_check (st.pc + 1) with m | o
          · simp only [poll_one, h1, h2, hc, hp, Bool.false_eq_true, if_false,
              ite_false, if_true, ite_true]
            intro h
            cases h
            exact Or.inl ⟨m, rfl⟩
          · match o with
            | none =>
              rcases hh : hash_record tgt e.2 with ⟨thr, hr⟩
              have hsh := hash_record_error_shape tgt e.2
              rw [hh] at hsh
              cases hr with
              | error er2 =>
                simp only [poll_one, h1, h2, hc, hp, hh, Bool.false_eq_true,
                  if_false, ite_false, if_true, ite_true]
                intro h
                cases h
                exact Or.inr (hsh _ rfl)
              | ok u =>
                simp [poll_one, h1, h2, hc, hp, hh]
            | some diag =>
              by_cases h3 : st.rc ≤ e.1.meta.retries
              · rcases hs : e.1.behavior.start (st.sk + 1) with m | u
                · simp only [poll_one, h1, h2, hc, hp, h3, hs, Bool.false_eq_true,
                    if_false, ite_false, if_true, ite_true]
                  intro h
                  cases h
                  exact Or.inl ⟨m, rfl⟩
                · simp [poll_one, h1, h2, hc, hp, h3, hs]
              · simp [poll_one, h1, h2, hc, hp, h3]
    · simp [poll_one, h1, h2]

lemma poll_all_no_kill (tgt : Target) (t : ℚ) (sts : PlanSt) (j : String) :
    Ev.kill j ∉ (poll_all tgt t sts).1 := by
  induction sts with
  | nil => simp [poll_all]
  | cons p rest ih =>
    obtain ⟨e, st⟩ := p
    have h1 := poll_one_no_kill tgt t e st j
    rcases hp : poll_one tgt t e st with ⟨tr, res⟩
    rw [hp] at h1
    cases res with
    | cont st2 =>
      rcases hr : poll_all tgt t rest with ⟨tr2, res2⟩
      rw [hr] at ih
      cases res2 <;>
        simp only [poll_all, hp, hr, List.mem_append] <;>
        rintro (h | h) <;> first | exact h1 h | exact ih h
    | exhausted i =>
      simp only [poll_all, hp]
      exact h1
    | fail er =>
      simp only [poll_all, hp]
      exact h1

lemma poll_all_fail_shape (tgt : Target) (t : ℚ) (sts : PlanSt) (er : Err) :
    (poll_all tgt t sts).2 = .fail er →
    (∃ m, er = .raised m) ∨ ∃ k, er = .fsdbFailed k := by
  induction sts with
  | nil => simp [poll_all]
  | cons p rest ih =>
    obtain ⟨e, st⟩ := p
    have h1 := poll_one_fail_shape tgt t e st er
    rcases hp : poll_one tgt t e st with ⟨tr, res⟩
    rw [hp] at h1
    cases res with
    | cont st2 =>
      rcases hr : poll_all tgt t rest with ⟨tr2, res2⟩
      rw [hr] at ih
      cases res2 with
      | cont sts2 => simp [poll_all, hp, hr]
      | exhausted i => simp [poll_all, hp, hr]
      | fail er2 =>
        simp only [poll_all, hp, hr]
        intro h
        cases h
        exact ih rfl
    | exhausted i => simp [poll_all, hp]
    | fail er2 =>
      simp only [poll_all, hp]
      intro h
      cases h
      exact h1 rfl

lemma countP_entry_id_eq_one (e : Entry) :
    ∀ l : List Entry, (l.map (fun x => x.1.id)).Nodup → e ∈ l →
      l.countP (fun x => decide (x.1.id = e.1.id)) = 1 := by
  intro l
  induction l with
  | nil => intro _ h; cases h
  | cons x rest ih =>
    intro hnodup hmem
    rw [List.map_cons, List.nodup_cons] at hnodup
    obtain ⟨hx, hrest⟩ := hnodup
    rw [List.countP_cons]
    rcases List.mem_cons.mp hmem with rfl | hmem2
    · have hz : rest.countP (fun x => decide (x.1.id = e.1.id)) = 0 := by
        rw [List.countP_eq_zero]
        intro a ha
        simp only [decide_eq_true_eq]
        intro hcontra
        exact hx (List.mem_map.mpr ⟨a, ha, hcontra⟩)
      simp [hz]
    · have hne : ¬(x.1.id = e.1.id) := by
        intro hcontra
        refine hx (List.mem_map.mpr ⟨e, hmem2, ?_⟩)
        exact hcontra.symm
      rw [ih hrest hmem2]
      simp [hne]

lemma count_kills_kill_all (plan : List Entry) (e : Entry)
    (hnodup : (plan.map (fun x => x.1.id)).Nodup) (he : e ∈ plan) :
    count_kills e.1.id (kill_all plan) = 1 := by
  unfold count_kills kill_all
  rw [List.countP_map]
  have : ((fun ev => decide (ev = Ev.kill e.1.id)) ∘ fun x : Entry => Ev.kill x.1.id)
      = fun x : Entry => decide (x.1.id = e.1.id) := by
    funext x
    simp [Function.comp, Ev.kill.injEq]
  rw [this]
  exact countP_entry_id_eq_one e plan hnodup he

lemma count_kills_eq_zero_of_not_mem (i : String) (tr : Trace)
    (h : Ev.kill i ∉ tr) : count_kills i tr = 0 := by
  rw [count_kills, List.countP_eq_zero]
  intro a ha
  simp only [decide_eq_true_eq]
  intro hcontra
  exact h (hcontra ▸ ha)

lemma loop_go_fatal_kills (tgt : Target) (plan : List Entry) (dur per : ℚ)
    (e : Entry) (hnodup : (plan.map (fun x => x.1.id)).Nodup) (he : e ∈ plan) :
    ∀ (fuel : Nat) (k : Nat) (sts : PlanSt),
      supervision_fatal (loop_go tgt plan dur per fuel k sts).2 →
      count_kills e.1.id (loop_go tgt plan dur per fuel k sts).1 = 1 := by
  intro fuel
  induction fuel with
  | zero =>
    intro k sts _
    simp only [loop_go]
    exact count_kills_kill_all plan e hnodup he
  | succ f ih =>
    intro k sts hfatal
    by_cases hg : rat_nmul k per < dur
    · rcases hp : poll_all tgt (rat_nmul (k + 1) per) sts with ⟨tr, res⟩
      have hnk := poll_all_no_kill tgt (rat_nmul (k + 1) per) sts e.1.id
      rw [hp] at hnk
      cases res with
      | cont sts2 =>
        by_cases hd : all_done sts2
        · exfalso
          simp only [loop_go, hg, if_true, hp, hd, ite_true] at hfatal
          rcases hfatal with h | ⟨i, h⟩ <;> cases h
        · simp only [loop_go, hg, if_true, hp, hd, Bool.false_eq_true,
            if_false, ite_true, ite_false] at hfatal ⊢
          have hz := count_kills_eq_zero_of_not_mem e.1.id tr hnk
          have hrec := ih (k + 1) sts2 hfatal
          rw [count_kills] at hz hrec ⊢
          simp only [List.countP_cons, List.countP_append]
          rw [hz, hrec]
          simp
      | exhausted i =>
        simp only [loop_go, hg, if_true, hp, ite_true]
        have hz := count_kills_eq_zero_of_not_mem e.1.id tr hnk
        have h1 := count_kills_kill_all plan e hnodup he
        rw [count_kills] at hz h1 ⊢
        simp only [List.countP_cons, List.countP_append]
        rw [hz, h1]
        simp
      | fail er =>
        exfalso
        simp only [loop_go, hg, if_true, hp, ite_true] at hfatal
        have hsh := poll_all_fail_shape tgt (rat_nmul (k + 1) per) sts er
        rw [hp] at hsh
        rcases hsh rfl with ⟨m, rfl⟩ | ⟨kk, rfl⟩ <;>
          rcases hfatal with h | ⟨i, h⟩ <;>
          simp at h
    · simp only [loop_go, hg, if_false, Bool.false_eq_true, ite_false]
      exact count_kills_kill_all plan e hnodup he

lemma start_all_no_kill (l : List Entry) (j : String) :
    Ev.kill j ∉ (start_all l).1 := by
  induction l with
  | nil => simp [start_all]
  | cons x rest ih =>
    by_cases h1 : x.1.supervised
    · rcases hs : x.1.behavior.start 1 with m | u
      · simp [start_all, h1, hs]
      · rcases hr : start_all rest with ⟨tr, res⟩
        rw [hr] at ih
        cases res <;>
          simp only [start_all, h1, hs, hr, if_true, ite_true, List.mem_cons] <;>
          rintro (h | h) <;> first | exact ih h | cases h
    · simp [start_all, h1]

lemma start_all_error_shape (l : List Entry) (er : Err) :
    (start_all l).2 = .error er →
    (∃ m, er = .raised m) ∨ ∃ i, er = .attributeError i := by
  induction l with
  | nil => simp [start_all]
  | cons x rest ih =>
    by_cases h1 : x.1.supervised
    · rcases hs : x.1.behavior.start 1 with m | u
      · simp only [start_all, h1, hs, if_true, ite_true]
        intro h
        cases h
        exact Or.inl ⟨m, rfl⟩
      · rcases hr : start_all rest with ⟨tr, res⟩
        rw [hr] at ih
        cases res with
        | error er2 =>
          simp only [start_all, h1, hs, hr, if_true, ite_true]
          intro h
          cases h
          exact ih rfl
        | ok sts => simp [start_all, h1, hs, hr]
    · simp only [start_all, h1, Bool.false_eq_true, if_false, ite_false]
      intro h
      cases h
      exact Or.inr ⟨x.1.id, rfl⟩

/-- C4 amended: on the two fatal paths of the supervision loop itself —
some driver exhausted its retries, or the deadline passed — every driver
of the sub-plan (drivers already marked done included) receives exactly
one `flash_kill` before the error is raised.  (The original claim also
covered "any other fatal error"; an exception escaping a driver method
or the hash recorder propagates with no kill at all, see the
counterexample.) -/
theorem C4_kill_on_fatal_amended (tgt : Target) (plan : List Entry)
    (hnodup : (plan.map (fun x => x.1.id)).Nodup)
    (hfatal : supervision_fatal (flash_parallel_do tgt plan).2) :
    ∀ e ∈ plan, count_kills e.1.id (flash_parallel_do tgt plan).1 = 1 := by
  intro e he
  rcases hs : start_all plan with ⟨tr, res⟩
  cases res with
  | error er =>
    exfalso
    simp only [flash_parallel_do, hs] at hfatal
    have hsh := start_all_error_shape plan er
    rw [hs] at hsh
    rcases hsh rfl with ⟨m, rfl⟩ | ⟨i, rfl⟩ <;>
      rcases hfatal with h | ⟨i2, h⟩ <;>
      simp at h
  | ok sts =>
    have hfatal2 : supervision_fatal
        (loop_go tgt plan (compute_duration plan) (compute_period plan)
          (loop_fuel (compute_duration plan) (compute_period plan)) 0 sts).2 := by
      simpa only [flash_parallel_do, hs] using hfatal
    have hcount := loop_go_fatal_kills tgt plan (compute_duration plan)
      (compute_period plan) e hnodup he
      (loop_fuel (compute_duration plan) (compute_period plan)) 0 sts hfatal2
    have hnk := start_all_no_kill plan e.1.id
    rw [hs] at hnk
    have hz := count_kills_eq_zero_of_not_mem e.1.id tr hnk
    simp only [flash_parallel_do, hs]
    rw [count_kills, List.countP_append]
    rw [count_kills] at hz hcount
    simp [hz, hcount]

theorem C4_kill_on_fatal_amended_witness :
    ([(drv_flash_ok, [("t1", "p1")]), (drv_never_done, [("t2", "p2")])].map
        (fun x : Entry => x.1.id)).Nodup
    ∧ supervision_fatal (flash_parallel_do tgt_ok
        [(drv_flash_ok, [("t1", "p1")]), (drv_never_done, [("t2", "p2")])]).2
    ∧ ∀ e ∈ [(drv_flash_ok, [("t1", "p1")]), (drv_never_done, [("t2", "p2")])],
        count_kills e.1.id (flash_parallel_do tgt_ok
          [(drv_flash_ok, [("t1", "p1")]), (drv_never_done, [("t2", "p2")])]).1 = 1 :=
  ⟨by decide, Or.inl (by decide),
   C4_kill_on_fatal_amended tgt_ok
     [(drv_flash_ok, [("t1", "p1")]), (drv_never_done, [("t2", "p2")])]
     (by decide) (Or.inl (by decide))⟩

/-! ### C3 -/

lemma rat_nmul_zero (p : ℚ) : rat_nmul 0 p = 0 := by
  rw [rat_nmul_eq]
  simp

lemma rat_nmul_one (p : ℚ) : rat_nmul 1 p = p := by
  rw [rat_nmul_eq]
  simp

lemma rat_nmul_gt (p : ℚ) (hp : 0 < p) (k : Nat) (hk : 1 ≤ k) :
    p < rat_nmul (k + 1) p := by
  rw [rat_nmul_eq]
  have h1 : (1 : ℚ) < ((k + 1 : Nat) : ℚ) := by
    have : (1 : Nat) < k + 1 := by omega
    exact_mod_cast this
  calc p = 1 * p := (one_mul p).symm
    _ < ((k + 1 : Nat) : ℚ) * p := mul_lt_mul_of_pos_right h1 hp

lemma rat_nmul_mono (p : ℚ) (hp : 0 ≤ p) {a b : Nat} (h : a ≤ b) :
    rat_nmul a p ≤ rat_nmul b p := by
  rw [rat_nmul_eq, rat_nmul_eq]
  have : ((a : Nat) : ℚ) ≤ ((b : Nat) : ℚ) := by exact_mod_cast h
  exact mul_le_mul_of_nonneg_right this hp

lemma rat_le_num_toNat (q : ℚ) (hq : 0 ≤ q) : q ≤ (q.num.toNat : ℚ) := by
  have h1 : ((q.num.toNat : ℤ) : ℚ) = (q.num : ℚ) := by
    rw [Int.toNat_of_nonneg (Rat.num_nonneg.mpr hq)]
  have h2 : q ≤ (q.num : ℚ) := by
    conv_lhs => rw [← Rat.num_div_den q]
    apply div_le_self
    · exact_mod_cast Rat.num_nonneg.mpr hq
    · exact_mod_cast Nat.one_le_iff_ne_zero.mpr q.den_nz
  calc q ≤ (q.num : ℚ) := h2
    _ = ((q.num.toNat : ℤ) : ℚ) := h1.symm
    _ = (q.num.toNat : ℚ) := by push_cast; ring

lemma start_events_append (i : String) (a b : Trace) :
    start_events i (a ++ b) = start_events i a ++ start_events i b := by
  simp [start_events]

lemma range_succ_map_add (r a : Nat) :
    (List.range (r + 1)).map (fun i => a + i)
      = a :: (List.range r).map (fun i => a + 1 + i) := by
  rw [List.range_succ_eq_map, List.map_cons, List.map_map]
  congr 1
  apply List.map_congr_left
  intro i _
  simp [Function.comp]
  omega

/-- The supervision loop on a single always-diagnosed driver: starting an
iteration `k ≥ 1` with `retry_count = j` and `rem = retries + 1 - j`
failures left before exhaustion, the loop restarts the driver `rem`
times (with `retry_count` values `j + 1, …, retries + 1`) and then fails
with the retries-exhausted error, provided the guard holds through
iteration `k + rem` and the fuel suffices. -/
lemma loop_go_always_diag (tgt : Target) (d : Driver) (imgs : ImageMap)
    (hstart : ∀ n, d.behavior.start n = .ok ())
    (hcheck : ∀ n, d.behavior.check_done n = .ok true)
    (hdiag : ∀ n, ∃ m, d.behavior.post_check n = .ok (some m))
    (dur : ℚ) (hcp0 : 0 < d.meta.check_period) :
    ∀ rem : Nat, ∀ fuel k j sk c p : Nat,
      j + rem = d.meta.retries + 1 →
      1 ≤ j → 1 ≤ k → rem + 1 ≤ fuel →
      rat_nmul (k + rem) d.meta.check_period < dur →
      (loop_go tgt [(d, imgs)] dur d.meta.check_period fuel k
          [((d, imgs), ⟨j, sk, c, p, false⟩)]).2
        = .error (.retriesExhausted d.id)
      ∧ start_events d.id (loop_go tgt [(d, imgs)] dur d.meta.check_period fuel k
          [((d, imgs), ⟨j, sk, c, p, false⟩)]).1
        = (List.range rem).map (fun i => j + 1 + i) := by
  intro rem
  induction rem with
  | zero =>
    intro fuel k j sk c p hj hj1 hk hfuel hguard
    obtain ⟨f, rfl⟩ : ∃ f, fuel = f + 1 := ⟨fuel - 1, by omega⟩
    have hg : rat_nmul k d.meta.check_period < dur := by
      simpa using hguard
    have ht : d.meta.check_period < rat_nmul (k + 1) d.meta.check_period := by
      rcases Nat.exists_eq_add_of_le hk with ⟨k0, rfl⟩
      exact rat_nmul_gt d.meta.check_period hcp0 (1 + k0) (by omega)
    obtain ⟨m, hm⟩ := hdiag (p + 1)
    have hjle : ¬(j ≤ d.meta.retries) := by omega
    have hpoll : poll_one tgt (rat_nmul (k + 1) d.meta.check_period)
        (d, imgs) ⟨j, sk, c, p, false⟩
        = ([Ev.checkDone d.id, Ev.postCheck d.id], .exhausted d.id) := by
      simp [poll_one, ht, hcheck, hm, hjle]
    simp only [loop_go, hg, if_true, ite_true, poll_all, hpoll]
    refine ⟨trivial, ?_⟩
    simp [start_events, kill_all]
  | succ r ih =>
    intro fuel k j sk c p hj hj1 hk hfuel hguard
    obtain ⟨f, rfl⟩ : ∃ f, fuel = f + 1 := ⟨fuel - 1, by omega⟩
    have hg : rat_nmul k d.meta.check_period < dur :=
      lt_of_le_of_lt (rat_nmul_mono d.meta.check_period hcp0.le (by omega)) hguard
    have ht : d.meta.check_period < rat_nmul (k + 1) d.meta.check_period := by
      rcases Nat.exists_eq_add_of_le hk with ⟨k0, rfl⟩
      exact rat_nmul_gt d.meta.check_period hcp0 (1 + k0) (by omega)
    obtain ⟨m, hm⟩ := hdiag (p + 1)
    have hjle : j ≤ d.meta.retries := by omega
    have hpoll : poll_one tgt (rat_nmul (k + 1) d.meta.check_period)
        (d, imgs) ⟨j, sk, c, p, false⟩
        = ([Ev.checkDone d.id, Ev.postCheck d.id, Ev.flashStart d.id (j + 1)],
           .cont ⟨j + 1, sk + 1, c + 1, p + 1, false⟩) := by
      simp [poll_one, ht, hcheck, hm, hjle, hstart]
    have hdone : all_done [((d, imgs), (⟨j + 1, sk + 1, c + 1, p + 1, false⟩ : DState))]
        = false := by
      simp [all_done]
    have hrec := ih f (k + 1) (j + 1) (sk + 1) (c + 1) (p + 1)
      (by omega) (by omega) (by omega) (by omega)
      (by
        have : k + 1 + r = k + (r + 1) := by omega
        rw [this]
        exact hguard)
    simp only [loop_go, hg, if_true, ite_true, poll_all, hpoll, hdone,
      Bool.false_eq_true, if_false, ite_false]
    refine ⟨hrec.1, ?_⟩
    have hrec2 := hrec.2
    simp only [start_events] at hrec2 ⊢
    simp only [List.filterMap_cons, List.filterMap_append]
    rw [hrec2, range_succ_map_add r (j + 1)]
    simp

/-- C3: a supervised driver whose `flash_post_check` always returns a
diagnostic, run alone by the parallel executor, is restarted exactly
`retries` times after the initial start before the request fails with the
retries-exhausted error: `flash_start` is invoked `retries + 1` times in
total, on the same context, whose `retry_count` takes the values
`1, 2, …, retries + 1`.  The deadline is assumed not to intervene
(`(retries + 1) * check_period < estimated_duration`), and the driver's
`check_period` is within the loop's initial accumulator value 4, so the
sleep period equals `check_period`. -/
theorem C3_retry_bound (tgt : Target) (d : Driver) (imgs : ImageMap)
    (hsup : d.supervised = true)
    (hstart : ∀ n, d.behavior.start n = .ok ())
    (hcheck : ∀ n, d.behavior.check_done n = .ok true)
    (hdiag : ∀ n, ∃ m, d.behavior.post_check n = .ok (some m))
    (hcp0 : 0 < d.meta.check_period)
    (hcp4 : d.meta.check_period ≤ 4)
    (hdl : rat_nmul (d.meta.retries + 1) d.meta.check_period
        < d.meta.estimated_duration) :
    (flash_parallel_do tgt [(d, imgs)]).2 = .error (.retriesExhausted d.id)
    ∧ start_events d.id (flash_parallel_do tgt [(d, imgs)]).1
        = (List.range (d.meta.retries + 1)).map (fun i => 1 + i) := by
  have hdlq : ((d.meta.retries + 1 : Nat) : ℚ) * d.meta.check_period
      < d.meta.estimated_duration := by
    rw [← rat_nmul_eq]
    exact hdl
  have hdur0 : (0 : ℚ) < d.meta.estimated_duration := by
    refine lt_of_le_of_lt ?_ hdlq
    positivity
  have hper : compute_period [(d, imgs)] = d.meta.check_period := by
    simp only [compute_period, List.foldl_cons, List.foldl_nil]
    exact min_eq_left hcp4
  have hdur : compute_duration [(d, imgs)] = d.meta.estimated_duration := by
    simp only [compute_duration, List.foldl_cons, List.foldl_nil]
    exact max_eq_left hdur0.le
  have hstart_all : start_all [(d, imgs)]
      = ([Ev.flashStart d.id 1], .ok [((d, imgs), ⟨1, 1, 0, 0, false⟩)]) := by
    simp [start_all, hsup, hstart 1]
  -- fuel bound: retries + 2 ≤ loop_fuel duration period
  have hnum1 : (1 : ℚ) ≤ d.meta.check_period * (d.meta.check_period.den : ℚ) := by
    have hden : ((d.meta.check_period.den : ℚ)) ≠ 0 := by
      exact_mod_cast d.meta.check_period.den_nz
    have hmulden : d.meta.check_period * (d.meta.check_period.den : ℚ)
        = (d.meta.check_period.num : ℚ) := by
      have h0 : (d.meta.check_period.num : ℚ) / (d.meta.check_period.den : ℚ)
          * (d.meta.check_period.den : ℚ) = (d.meta.check_period.num : ℚ) :=
        div_mul_cancel₀ _ hden
      rw [Rat.num_div_den] at h0
      exact h0
    rw [hmulden]
    exact_mod_cast Rat.num_pos.mpr hcp0
  have hfuelq : ((d.meta.retries + 1 : Nat) : ℚ)
      < ((d.meta.estimated_duration.num.toNat * d.meta.check_period.den : Nat) : ℚ) := by
    have hden0 : (0 : ℚ) ≤ (d.meta.check_period.den : ℚ) := by positivity
    calc ((d.meta.retries + 1 : Nat) : ℚ)
        = ((d.meta.retries + 1 : Nat) : ℚ) * 1 := (mul_one _).symm
      _ ≤ ((d.meta.retries + 1 : Nat) : ℚ)
            * (d.meta.check_period * (d.meta.check_period.den : ℚ)) := by
          apply mul_le_mul_of_nonneg_left hnum1
          positivity
      _ = (((d.meta.retries + 1 : Nat) : ℚ) * d.meta.check_period)
            * (d.meta.check_period.den : ℚ) := by ring
      _ < d.meta.estimated_duration * (d.meta.check_period.den : ℚ) := by
          apply mul_lt_mul_of_pos_right hdlq
          have := d.meta.check_period.pos
          exact_mod_cast this
      _ ≤ (d.meta.estimated_duration.num.toNat : ℚ) * (d.meta.check_period.den : ℚ) := by
          exact mul_le_mul_of_nonneg_right
            (rat_le_num_toNat d.meta.estimated_duration hdur0.le) hden0
      _ = ((d.meta.estimated_duration.num.toNat * d.meta.check_period.den : Nat) : ℚ) := by
          push_cast
          ring
  have hfuel : d.meta.retries + 1
      < d.meta.estimated_duration.num.toNat * d.meta.check_period.den := by
    exact_mod_cast hfuelq
  -- first loop iteration: the clock is at one period, not yet past check_period
  have hg0 : rat_nmul 0 d.meta.check_period < d.meta.estimated_duration := by
    rw [rat_nmul_zero]
    exact hdur0
  have ht1 : ¬(d.meta.check_period < rat_nmul (0 + 1) d.meta.check_period) := by
    rw [rat_nmul_one]
    exact lt_irrefl _
  have hpoll1 : poll_one tgt (rat_nmul (0 + 1) d.meta.check_period)
      (d, imgs) ⟨1, 1, 0, 0, false⟩
      = ([], .cont ⟨1, 1, 0, 0, false⟩) := by
    simp [poll_one, ht1]
  have hdone1 : all_done [((d, imgs), (⟨1, 1, 0, 0, false⟩ : DState))] = false := by
    simp [all_done]
  simp only [flash_parallel_do, hstart_all, hper, hdur]
  generalize hF : loop_fuel d.meta.estimated_duration d.meta.check_period = F
  have hFge : d.meta.retries + 2 ≤ F := by
    rw [← hF]
    show d.meta.retries + 2
      ≤ d.meta.estimated_duration.num.toNat * d.meta.check_period.den + 2
    omega
  obtain ⟨f0, rfl⟩ : ∃ f0, F = f0 + 1 := ⟨F - 1, by omega⟩
  have hrec := loop_go_always_diag tgt d imgs hstart hcheck hdiag
    d.meta.estimated_duration hcp0 d.meta.retries f0 1 1 1 0 0
    (by omega) (by omega) (by omega) (by omega)
    (by
      have : 1 + d.meta.retries = d.meta.retries + 1 := by omega
      rw [this]
      exact hdl)
  simp only [loop_go, hg0, if_true, ite_true, poll_all, hpoll1, hdone1,
    Bool.false_eq_true, if_false, ite_false]
  refine ⟨hrec.1, ?_⟩
  have hrec2 := hrec.2
  simp only [start_events] at hrec2 ⊢
  simp only [List.filterMap_cons, List.filterMap_append, List.nil_append]
  rw [hrec2, range_succ_map_add d.meta.retries 1]
  simp

theorem C3_retry_bound_witness :
    drv_retry_twice.supervised = true
    ∧ (0 : ℚ) < drv_retry_twice.meta.check_period
    ∧ rat_nmul (drv_retry_twice.meta.retries + 1) drv_retry_twice.meta.check_period
        < drv_retry_twice.meta.estimated_duration
    ∧ ((flash_parallel_do tgt_ok [(drv_retry_twice, [("t1", "p1")])]).2
        = .error (.retriesExhausted drv_retry_twice.id)
      ∧ start_events drv_retry_twice.id
          (flash_parallel_do tgt_ok [(drv_retry_twice, [("t1", "p1")])]).1
        = (List.range (drv_retry_twice.meta.retries + 1)).map (fun i => 1 + i)) :=
  ⟨by decide, by decide, by decide,
   C3_retry_bound tgt_ok drv_retry_twice [("t1", "p1")] (by decide)
     (fun _ => rfl) (fun _ => rfl) (fun _ => ⟨"bad", rfl⟩)
     (by decide) (by decide) (by decide)⟩

end Ttbl
